import Mathlib

/-!
Verification development for the `add-bot-rs` Telegram queue bot.

The repository's command handler and scheduler live in `src/bot.rs` and
`src/main.rs`; the pure state store (`state.rs`), the state container
(`state_container.rs`) and the small utility/type modules are declared by
`main.rs` but their sources are not available, so those transition
functions are modelled from the specification (each such definition says
so in its doc comment).

Times of day (`chrono::NaiveTime`) are embedded as seconds since
midnight (`Nat`, `< 86400`); `chrono`'s `NaiveTime + Duration` wraps
around midnight, which the model mirrors with `% 86400`.  Hash maps are
embedded as association lists; outbound Telegram messages are embedded
as an inductive message type carrying the data the bot formats into
them.
-/

namespace AddBot

/-- Association-list lookup: the value bound to the first occurrence of
the key, mirroring `HashMap::get`. -/
def alookup {α β : Type} [DecidableEq α] (k : α) : List (α × β) → Option β
  | [] => none
  | (k', v) :: rest => if k' = k then some v else alookup k rest

/-- Association-list insert-or-replace, mirroring `HashMap::insert` at the
level of the key→value mapping. -/
def ainsert {α β : Type} [DecidableEq α] (k : α) (v : β) : List (α × β) → List (α × β)
  | [] => [(k, v)]
  | (k', v') :: rest => if k' = k then (k, v) :: rest else (k', v') :: ainsert k v rest

/-- Association-list erase, mirroring `HashMap::remove` at the level of
the key→value mapping. -/
def aerase {α β : Type} [DecidableEq α] (k : α) (l : List (α × β)) : List (α × β) :=
  l.filter (fun p => p.1 ≠ k)

/-! ## Data model (`types.rs` / `state.rs`, modelled from the spec) -/

/-- Modelled from the spec: `ChatId` (types.rs is not in the sources) is an
opaque identifier of a conversation, the key into the chat map. -/
abbrev ChatId := Nat

/-- Modelled from the spec: `QueueId` (types.rs is not in the sources) is
either the empty "instant" id or a time-of-day string "HH:MM". -/
abbrev QueueId := String

abbrev Username := String

/-- Modelled from the spec: a time of day, as seconds since midnight. -/
abbrev TimeOfDay := Nat

/-- Modelled from the spec: `QueueId::is_instant_queue` (types.rs is not in
the sources) — the instant queue is the one with the empty id. -/
def isInstantQueue (qid : QueueId) : Bool := qid = ""

/-- Modelled from the spec: the `Queue` record (state.rs is not in the
sources): ordered players, fixed capacity, time-of-day timeout and the
literal add command used in status messages. -/
structure Queue where
  players : List Username
  capacity : Nat
  timeout : TimeOfDay
  add_cmd : String
deriving DecidableEq, Repr

/-- Modelled from the spec: a `Chat` maps queue ids to queues. -/
structure Chat where
  queues : List (QueueId × Queue)
deriving DecidableEq, Repr

/-- Modelled from the spec: the root `State` maps chat ids to chats. -/
structure State where
  chats : List (ChatId × Chat)
deriving DecidableEq, Repr

/-- Modelled from the spec: the empty default state used when no snapshot
can be loaded. -/
def State.empty : State := ⟨[]⟩

/-- Modelled from the spec: `Queue::is_full` — `len(players) == capacity`. -/
def Queue.is_full (q : Queue) : Bool := q.players.length = q.capacity

/-- Modelled from the spec: the op reported by `add_remove_player`. -/
inductive AddRemovePlayerOp where
  | PlayerAdded (username : Username)
  | PlayerRemoved (username : Username)
deriving DecidableEq, Repr

/-- Modelled from the spec: the result classification reported by
`add_remove_player`, carrying the post-operation queue. -/
inductive AddRemovePlayerResult where
  | QueueFull (queue : Queue)
  | QueueEmpty (queue : Queue)
  | PlayerQueued (queue : Queue)
deriving DecidableEq, Repr

/-- The queue a result carries. -/
def AddRemovePlayerResult.queue : AddRemovePlayerResult → Queue
  | .QueueFull q => q
  | .QueueEmpty q => q
  | .PlayerQueued q => q

/-- The chat stored for `chatId`, or a fresh empty chat — mirrors the lazy
chat creation described in the spec. -/
def effChat (s : State) (chatId : ChatId) : Chat :=
  (alookup chatId s.chats).getD ⟨[]⟩

/-- The queue stored for `queueId` in `chatId`, or a fresh empty queue
seeded with the supplied capacity/timeout/add_cmd — mirrors the implicit
queue creation of `add_remove_player` described in the spec. -/
def effQueue (cap : Nat) (s : State) (chatId : ChatId) (queueId : QueueId)
    (add_cmd : String) (timeout : TimeOfDay) : Queue :=
  (alookup queueId (effChat s chatId).queues).getD ⟨[], cap, timeout, add_cmd⟩

/-- Modelled from the spec: the toggle step of `add_remove_player` on a
single queue.  If `username` is already a member it is removed
(`PlayerRemoved`); otherwise, below capacity, it is appended at the end
(`PlayerAdded`); at capacity the add is rejected and the queue is left
unchanged. -/
def toggled (q : Queue) (username : Username) : Queue × AddRemovePlayerOp :=
  if username ∈ q.players then
    ({ q with players := q.players.filter (· ≠ username) },
     AddRemovePlayerOp.PlayerRemoved username)
  else if q.players.length < q.capacity then
    ({ q with players := q.players ++ [username] },
     AddRemovePlayerOp.PlayerAdded username)
  else
    (q, AddRemovePlayerOp.PlayerAdded username)

/-- Modelled from the spec: the result classification of
`add_remove_player`, computed on the queue after the operation:
`QueueFull` if `len(players) == capacity`, `QueueEmpty` if
`len(players) == 0`, otherwise `PlayerQueued`. -/
def classifyQueue (q : Queue) : AddRemovePlayerResult :=
  if q.players.length = q.capacity then AddRemovePlayerResult.QueueFull q
  else if q.players.length = 0 then AddRemovePlayerResult.QueueEmpty q
  else AddRemovePlayerResult.PlayerQueued q

/-- Modelled from the spec: `State::add_remove_player` (state.rs is not in
the sources).  Toggle semantics on the addressed queue, creating the
chat/queue if absent, seeded with the supplied `add_cmd`/`timeout`
(first-writer-wins: an existing queue's fields are never overwritten);
the result is classified on the post-operation queue.  `cap` is the
deployment-constant capacity used to seed a newly created queue. -/
def add_remove_player (cap : Nat) (s : State) (chatId : ChatId) (queueId : QueueId)
    (add_cmd : String) (timeout : TimeOfDay) (username : Username) :
    State × AddRemovePlayerResult × AddRemovePlayerOp :=
  let q := effQueue cap s chatId queueId add_cmd timeout
  let qop := toggled q username
  (⟨ainsert chatId ⟨ainsert queueId qop.1 (effChat s chatId).queues⟩ s.chats⟩,
   classifyQueue qop.1, qop.2)

/-- Modelled from the spec: `State::rm_player` (state.rs is not in the
sources).  Removes `username` from every queue of `chatId` that contains
it and returns the (queueId, resultingQueue) pairs for the queues that
were actually modified; queues not containing the player, and emptied
queues, are kept alive. -/
def rm_player (s : State) (chatId : ChatId) (username : Username) :
    State × List (QueueId × Queue) :=
  match alookup chatId s.chats with
  | none => (s, [])
  | some chat =>
    let newQueues := chat.queues.map (fun p =>
      (p.1, if username ∈ p.2.players then
              { p.2 with players := p.2.players.filter (· ≠ username) }
            else p.2))
    let affected := chat.queues.filterMap (fun p =>
      if username ∈ p.2.players then
        some (p.1, { p.2 with players := p.2.players.filter (· ≠ username) })
      else none)
    (⟨ainsert chatId ⟨newQueues⟩ s.chats⟩, affected)

/-- Modelled from the spec: `State::rm_chat_queue` (state.rs is not in the
sources).  Removes and returns the queue if present; returns `none` (not
an error) if already absent, leaving the state unchanged. -/
def rm_chat_queue (s : State) (chatId : ChatId) (queueId : QueueId) :
    State × Option Queue :=
  match alookup chatId s.chats with
  | none => (s, none)
  | some chat =>
    match alookup queueId chat.queues with
    | none => (s, none)
    | some q =>
      (⟨ainsert chatId ⟨aerase queueId chat.queues⟩ s.chats⟩, some q)

/-! ## Time formatting (`util.rs`, modelled from the spec) and
queue-target construction (`bot.rs` lines 94–109) -/

/-- Two-digit zero-padded decimal, as chrono's `%H`/`%M` render hours and
minutes. -/
def twoDigits (n : Nat) : String := (if n < 10 then "0" else "") ++ toString n

/-- Modelled from the spec: `fmt_naive_time` (util.rs is not in the
sources) renders a time of day as "HH:MM", truncating to the minute. -/
def fmt_naive_time (t : TimeOfDay) : String :=
  twoDigits (t / 3600) ++ ":" ++ twoDigits (t % 3600 / 60)

/-- The add command `time.format("/%H%M")` built for a timed queue
(bot.rs line 99). -/
def timedAddCmd (t : TimeOfDay) : String :=
  "/" ++ twoDigits (t / 3600) ++ twoDigits (t % 3600 / 60)

/-- `INSTANT_QUEUE_TIMEOUT_MINUTES` (bot.rs line 13). -/
def INSTANT_QUEUE_TIMEOUT_MINUTES : Nat := 30

def secondsPerDay : Nat := 86400

/-- The (queue_id, timeout, add_cmd) triple constructed by the
`AddRemove` branch of `handle_cmd` (bot.rs lines 96–109): a supplied
time-of-day targets the timed queue named "HH:MM" with add command
"/HHMM" and the supplied time as timeout; no time targets the instant
queue (empty id, add command "/add") with timeout now plus the fixed
offset, wrapping around midnight as chrono's `NaiveTime + Duration`
does. -/
def mkQueueTarget (now : TimeOfDay) (time : Option TimeOfDay) :
    QueueId × TimeOfDay × String :=
  match time with
  | some time => (fmt_naive_time time, time, timedAddCmd time)
  | none => ("", (now + INSTANT_QUEUE_TIMEOUT_MINUTES * 60) % secondsPerDay, "/add")

/-! ## Outbound messages and the scheduler (`bot.rs` lines 17–80) -/

/-- The outbound Telegram messages the bot sends, carrying the data they
are formatted from (the exact strings of `util.rs` are not in the
sources, so messages are embedded structurally; distinct constructors
correspond to distinct message shapes in bot.rs). -/
inductive OutMsg where
  /-- The command descriptions sent for `Help` (bot.rs line 89). -/
  | helpMsg
  /-- "{qid} queue: It's time to play!" for a full timed-out queue
  (bot.rs line 34). -/
  | readyToPlay (queueId : QueueId) (players : List Username)
  /-- "{qid} queue timed out!" for a non-full timed-out queue
  (bot.rs line 37). -/
  | timedOut (queueId : QueueId) (players : List Username)
  /-- "Match ready in {qid} queue!" (bot.rs line 120). -/
  | matchReady (queueId : QueueId) (players : List Username)
  /-- `mk_queue_status_msg(queue, queue_id, op)` (bot.rs lines 125, 142). -/
  | queueStatus (queueId : QueueId) (queue : Queue) (op : AddRemovePlayerOp)
  /-- The queue listing, or "No active queues." (bot.rs lines 157–169). -/
  | queueList (text : String)
deriving DecidableEq, Repr

/-- `handle_queue_timeout` (bot.rs lines 17–43): removes the chat queue,
writes the new state, and — only when a queue was actually removed —
reports a "time to play" message for a full queue or a "timed out"
message otherwise.  Returns the written state and the message sent, if
any. -/
def handle_queue_timeout (s : State) (chatId : ChatId) (queueId : QueueId) :
    State × Option OutMsg :=
  let r := rm_chat_queue s chatId queueId
  match r.2 with
  | none => (r.1, none)
  | some q =>
    (r.1, some (if q.is_full then OutMsg.readyToPlay queueId q.players
                else OutMsg.timedOut queueId q.players))

/-- The (chat, queue) pairs one scheduler tick fires on: from the tick's
state snapshot, every queue whose timeout formats ("HH:MM") equal to the
formatted current time (bot.rs lines 48–59). -/
def tickTargets (s : State) (t : String) : List (ChatId × QueueId) :=
  (s.chats.map (fun c =>
    c.2.queues.filterMap (fun q =>
      if t = fmt_naive_time q.2.timeout then some (c.1, q.1) else none))).flatten

/-- One iteration of the `poll_for_timeouts` loop body (bot.rs lines
46–65): formats the current time once, then runs `handle_queue_timeout`
for every matching (chat, queue) of the snapshot, each call reading the
state left by the previous one, collecting the messages sent. -/
def pollTick (s : State) (now : TimeOfDay) : State × List OutMsg :=
  (tickTargets s (fmt_naive_time now)).foldl (fun acc target =>
    let r := handle_queue_timeout acc.1 target.1 target.2
    (r.1, acc.2 ++ r.2.toList)) (s, [])

/-! ## Commands and the command handler (`bot.rs` lines 83–176) -/

/-- Modelled from the spec: the closed command set produced by the parser
(command.rs is not in the sources). -/
inductive Command where
  | Help
  | AddRemove (time : Option TimeOfDay) (for_user : Option Username)
  | RemoveAll
  | List
deriving DecidableEq, Repr

/-- Modelled from the spec: `mk_username` (util.rs is not in the sources)
resolves a sender to their display name; senders are embedded directly
as their resolved display names. -/
def mk_username (user : Username) : Username := user

/-- Modelled from the spec: `mk_players_str` (util.rs is not in the
sources) enumerates a queue's players. -/
def mk_players_str (q : Queue) : String := String.intercalate ", " q.players

/-- `make_queue_strings` (bot.rs lines 68–80): one "{qid} {players}
{add_cmd}" line per queue, sorted. -/
def make_queue_strings (queues : List (QueueId × Queue)) : List String :=
  (queues.map (fun p => p.1 ++ " " ++ mk_players_str p.2 ++ " " ++ p.2.add_cmd)).mergeSort
    (fun a b => decide (a ≤ b))

/-- `handle_cmd` (bot.rs lines 83–176) as a pure function from the read
state snapshot to the written state and the messages sent.  `user` is
the message's resolvable sender identity (`msg.from()`); when it is
`none` the handler bails out before acting (bot.rs line 86).  `cap` is
the deployment-constant queue capacity and `now` the current wall-clock
time of day. -/
def handle_cmd (cap : Nat) (now : TimeOfDay) (s : State) (chatId : ChatId)
    (user : Option Username) (cmd : Command) : State × List OutMsg :=
  match user with
  | none => (s, [])
  | some user =>
    match cmd with
    | Command.Help => (s, [OutMsg.helpMsg])
    | Command.AddRemove time for_user =>
      let username := for_user.getD (mk_username user)
      let tgt := mkQueueTarget now time
      let r := add_remove_player cap s chatId tgt.1 tgt.2.2 tgt.2.1 username
      let text := match r.2.1 with
        | AddRemovePlayerResult.QueueFull q =>
          if isInstantQueue tgt.1 then OutMsg.matchReady tgt.1 q.players
          else OutMsg.queueStatus tgt.1 q r.2.2
        | AddRemovePlayerResult.PlayerQueued q => OutMsg.queueStatus tgt.1 q r.2.2
        | AddRemovePlayerResult.QueueEmpty q => OutMsg.queueStatus tgt.1 q r.2.2
      (r.1, [text])
    | Command.RemoveAll =>
      let username := mk_username user
      let r := rm_player s chatId username
      (r.1, r.2.map (fun p =>
        OutMsg.queueStatus p.1 p.2 (AddRemovePlayerOp.PlayerRemoved username)))
    | Command.List =>
      let queues := (alookup chatId s.chats).map Chat.queues
      let text := match queues with
        | some queues =>
          if queues.isEmpty then OutMsg.queueList "No active queues."
          else
            let parts := queues.partition (fun p => now < p.2.timeout)
            OutMsg.queueList (String.intercalate "\n"
              (make_queue_strings parts.1 ++ make_queue_strings parts.2))
        | none => OutMsg.queueList "No active queues."
      (s, [text])

/-! ## Startup state loading (`state_container.rs`, modelled from the
spec; `main.rs` lines 13–15) -/

/-- The possible outcomes of reading the persisted snapshot. -/
inductive LoadOutcome where
  | absent
  | corrupted
  | ok (s : State)
deriving DecidableEq, Repr

/-- Modelled from the spec: `StateContainer::try_read_from_file`
(state_container.rs is not in the sources) attempts to read a persisted
snapshot and, on absence or corruption, falls back to the empty default
State, logging the failure (the Bool is the logged-a-failure flag); it
never fails. -/
def try_read_from_file : LoadOutcome → State × Bool
  | LoadOutcome.ok s => (s, false)
  | LoadOutcome.absent => (State.empty, true)
  | LoadOutcome.corrupted => (State.empty, true)

/-- The state-loading step of `main` (main.rs line 15): since the load
itself never fails, the fallible startup step always succeeds and never
aborts the process. -/
def startupState (o : LoadOutcome) : Except String State :=
  Except.ok (try_read_from_file o).1

/-! ## Invariant and reachability -/

/-- The queue invariant of the spec: at most `capacity` players, no
duplicate entries. -/
def Queue.wf (q : Queue) : Prop := q.players.length ≤ q.capacity ∧ q.players.Nodup

/-- The state invariant: every queue of every chat is well-formed. -/
def State.wf (s : State) : Prop :=
  ∀ cid chat, alookup cid s.chats = some chat →
    ∀ qid q, alookup qid chat.queues = some q → q.wf

/-- States reachable from the empty initial state through the three
transition functions of the store. -/
inductive Reachable : State → Prop where
  | init : Reachable State.empty
  | addRemove (cap : Nat) (s : State) (cid : ChatId) (qid : QueueId) (ac : String)
      (t : TimeOfDay) (u : Username) :
      Reachable s → Reachable (add_remove_player cap s cid qid ac t u).1
  | removeAll (s : State) (cid : ChatId) (u : Username) :
      Reachable s → Reachable (rm_player s cid u).1
  | removeQueue (s : State) (cid : ChatId) (qid : QueueId) :
      Reachable s → Reachable (rm_chat_queue s cid qid).1

/-! ## Association-list lemmas -/

theorem alookup_ainsert {α β : Type} [DecidableEq α] (k : α) (v : β) (l : List (α × β)) :
    alookup k (ainsert k v l) = some v := by
  induction l with
  | nil => simp [ainsert, alookup]
  | cons hd tl ih =>
    by_cases h : hd.1 = k
    · simp [ainsert, alookup, h]
    · simp only [ainsert, alookup, h, if_neg, ih]
      simp [alookup, h, ih]

theorem alookup_ainsert_ne {α β : Type} [DecidableEq α] (k k' : α) (v : β)
    (l : List (α × β)) (hne : k ≠ k') :
    alookup k' (ainsert k v l) = alookup k' l := by
  induction l with
  | nil => simp [ainsert, alookup, hne]
  | cons hd tl ih =>
    by_cases h : hd.1 = k
    · simp [ainsert, alookup, h, hne]
    · simp [ainsert, alookup, h, ih]

theorem alookup_aerase {α β : Type} [DecidableEq α] (k : α) (l : List (α × β)) :
    alookup k (aerase k l) = none := by
  induction l with
  | nil => simp [aerase, alookup]
  | cons hd tl ih =>
    by_cases h : hd.1 = k
    · simpa [aerase, alookup, h] using ih
    · simpa [aerase, alookup, h] using ih

theorem alookup_aerase_ne {α β : Type} [DecidableEq α] (k k' : α) (l : List (α × β))
    (hne : k ≠ k') :
    alookup k' (aerase k l) = alookup k' l := by
  induction l with
  | nil => simp [aerase, alookup]
  | cons hd tl ih =>
    by_cases h : hd.1 = k
    · have h2 : hd.1 ≠ k' := fun hk => hne (h ▸ hk)
      simpa [aerase, alookup, List.filter_cons, h, h2, hne] using ih
    · have h3 : k' ≠ k := fun hk => hne hk.symm
      by_cases h' : hd.1 = k'
      · simp [aerase, alookup, List.filter_cons, h, h', h3]
      · simpa [aerase, alookup, List.filter_cons, h, h'] using ih

theorem alookup_map_value {α β γ : Type} [DecidableEq α] (k : α)
    (f : α × β → γ) (l : List (α × β)) :
    alookup k (l.map (fun p => (p.1, f p))) = (alookup k l).map (fun v => f (k, v)) := by
  induction l with
  | nil => simp [alookup]
  | cons hd tl ih =>
    by_cases h : hd.1 = k
    · subst h; simp [alookup]
    · simp [alookup, h, ih]

/-! ## Helper lemmas about the store -/

/-- The queue stored after `add_remove_player` is the toggled queue,
whatever seed values a later lookup supplies. -/
theorem effQueue_add_remove_player (cap cap' : Nat) (s : State) (chatId : ChatId)
    (queueId : QueueId) (ac ac' : String) (t t' : TimeOfDay) (u : Username) :
    effQueue cap' (add_remove_player cap s chatId queueId ac t u).1 chatId queueId ac' t' =
      (toggled (effQueue cap s chatId queueId ac t) u).1 := by
  simp [add_remove_player, effQueue, effChat, alookup_ainsert]

/-- `toggled` changes only the `players` field. -/
theorem toggled_fields (q : Queue) (u : Username) :
    (toggled q u).1.capacity = q.capacity ∧ (toggled q u).1.timeout = q.timeout ∧
      (toggled q u).1.add_cmd = q.add_cmd := by
  unfold toggled
  by_cases h : u ∈ q.players
  · simp [h]
  · by_cases h' : q.players.length < q.capacity <;> simp [h, h']

theorem filter_ne_of_not_mem {l : List Username} {u : Username} (h : u ∉ l) :
    l.filter (· ≠ u) = l := by
  induction l with
  | nil => rfl
  | cons hd tl ih =>
    have hne : hd ≠ u := fun he => h (he ▸ List.mem_cons_self hd tl)
    have htl : u ∉ tl := fun ht => h (List.mem_cons_of_mem hd ht)
    have hcons : (hd :: tl).filter (· ≠ u) = hd :: tl.filter (· ≠ u) := by
      simp [List.filter_cons, hne]
    rw [hcons, ih htl]

/-! ## Claim theorems -/

/-- C1: toggle semantics of `add_remove_player` — a present username is
removed (`PlayerRemoved`); an absent one is appended at the end when the
queue is below capacity (`PlayerAdded`); applying the same call twice
from a state where the user is absent restores that user's absence and
the exact membership and order of the other players, and a third
application re-adds the user at the end. -/
theorem addRemovePlayer_toggle_semantics
    (cap : Nat) (s : State) (cid : ChatId) (qid : QueueId) (ac : String)
    (t : TimeOfDay) (u : Username)
    (q0 : Queue) (hq0 : q0 = effQueue cap s cid qid ac t)
    (s1 : State) (hs1 : s1 = (add_remove_player cap s cid qid ac t u).1)
    (s2 : State) (hs2 : s2 = (add_remove_player cap s1 cid qid ac t u).1)
    (s3 : State) (hs3 : s3 = (add_remove_player cap s2 cid qid ac t u).1) :
    (u ∈ q0.players →
      (add_remove_player cap s cid qid ac t u).2.2 = AddRemovePlayerOp.PlayerRemoved u ∧
      (effQueue cap s1 cid qid ac t).players = q0.players.filter (· ≠ u)) ∧
    (u ∉ q0.players → q0.players.length < q0.capacity →
      (add_remove_player cap s cid qid ac t u).2.2 = AddRemovePlayerOp.PlayerAdded u ∧
      (effQueue cap s1 cid qid ac t).players = q0.players ++ [u] ∧
      (effQueue cap s2 cid qid ac t).players = q0.players ∧
      (effQueue cap s3 cid qid ac t).players = q0.players ++ [u]) := by
  subst hq0 hs1 hs2 hs3
  have hq1 := effQueue_add_remove_player cap cap s cid qid ac ac t t u
  constructor
  · intro hu
    refine ⟨by simp [add_remove_player, toggled, hu], ?_⟩
    rw [hq1]; simp [toggled, hu]
  · intro hu hlen
    have h1 : (effQueue cap (add_remove_player cap s cid qid ac t u).1 cid qid ac t).players =
        (effQueue cap s cid qid ac t).players ++ [u] := by
      rw [hq1]; simp [toggled, hu, hlen]
    have hcap1 : (effQueue cap (add_remove_player cap s cid qid ac t u).1 cid qid ac t).capacity =
        (effQueue cap s cid qid ac t).capacity := by
      rw [hq1]; exact (toggled_fields _ u).1
    have hq2 := effQueue_add_remove_player cap cap
      (add_remove_player cap s cid qid ac t u).1 cid qid ac ac t t u
    have hu1 : u ∈ (effQueue cap (add_remove_player cap s cid qid ac t u).1 cid qid ac t).players := by
      rw [h1]; exact List.mem_append_right _ (List.mem_singleton.mpr rfl)
    have h2 : (effQueue cap (add_remove_player cap
        (add_remove_player cap s cid qid ac t u).1 cid qid ac t u).1 cid qid ac t).players =
        (effQueue cap s cid qid ac t).players := by
      rw [hq2]
      simp only [toggled, hu1, if_pos]
      rw [h1, List.filter_append, filter_ne_of_not_mem hu]
      simp
    have hcap2 : (effQueue cap (add_remove_player cap
        (add_remove_player cap s cid qid ac t u).1 cid qid ac t u).1 cid qid ac t).capacity =
        (effQueue cap s cid qid ac t).capacity := by
      rw [hq2]
      exact ((toggled_fields _ u).1).trans hcap1
    have hq3 := effQueue_add_remove_player cap cap
      (add_remove_player cap (add_remove_player cap s cid qid ac t u).1 cid qid ac t u).1
      cid qid ac ac t t u
    have h3 : (effQueue cap (add_remove_player cap (add_remove_player cap
        (add_remove_player cap s cid qid ac t u).1 cid qid ac t u).1 cid qid ac t u).1
        cid qid ac t).players =
        (effQueue cap s cid qid ac t).players ++ [u] := by
      rw [hq3]
      have hu2 : u ∉ (effQueue cap (add_remove_player cap
          (add_remove_player cap s cid qid ac t u).1 cid qid ac t u).1 cid qid ac t).players := by
        rw [h2]; exact hu
      have hlen2 : (effQueue cap (add_remove_player cap
          (add_remove_player cap s cid qid ac t u).1 cid qid ac t u).1 cid qid ac t).players.length <
          (effQueue cap (add_remove_player cap
          (add_remove_player cap s cid qid ac t u).1 cid qid ac t u).1 cid qid ac t).capacity := by
        rw [h2, hcap2]; exact hlen
      simp only [toggled, hu2, hlen2, if_neg, if_pos, not_false_iff]
      rw [h2]
    exact ⟨by simp [add_remove_player, toggled, hu, hlen], h1, h2, h3⟩

/-- C1 witness: adding "A" to the fresh instant queue of the empty state
(capacity 2) reports `PlayerAdded` and appends "A". -/
theorem addRemovePlayer_toggle_semantics_witness :
    ("A" : Username) ∉ (effQueue 2 State.empty 0 "" "/add" 1800).players ∧
    (effQueue 2 State.empty 0 "" "/add" 1800).players.length <
      (effQueue 2 State.empty 0 "" "/add" 1800).capacity ∧
    (add_remove_player 2 State.empty 0 "" "/add" 1800 "A").2.2 =
      AddRemovePlayerOp.PlayerAdded "A" ∧
    (effQueue 2 (add_remove_player 2 State.empty 0 "" "/add" 1800 "A").1
      0 "" "/add" 1800).players =
      (effQueue 2 State.empty 0 "" "/add" 1800).players ++ ["A"] := by
  have h := (addRemovePlayer_toggle_semantics 2 State.empty 0 "" "/add" 1800 "A"
    _ rfl _ rfl _ rfl _ rfl).2 (by decide) (by decide)
  exact ⟨by decide, by decide, h.1, h.2.1⟩

/-- C2: the result of `add_remove_player` is classified on the
post-operation queue — `QueueFull` iff it has exactly `capacity` players,
`QueueEmpty` iff it has zero players, `PlayerQueued` otherwise (the
capacity being positive, as the spec fixes it). -/
theorem addRemovePlayer_classification
    (cap : Nat) (s : State) (cid : ChatId) (qid : QueueId) (ac : String)
    (t : TimeOfDay) (u : Username)
    (hcap : 0 < (effQueue cap s cid qid ac t).capacity)
    (q' : Queue)
    (hq' : q' = effQueue cap (add_remove_player cap s cid qid ac t u).1 cid qid ac t) :
    ((add_remove_player cap s cid qid ac t u).2.1 = AddRemovePlayerResult.QueueFull q' ↔
      q'.players.length = q'.capacity) ∧
    ((add_remove_player cap s cid qid ac t u).2.1 = AddRemovePlayerResult.QueueEmpty q' ↔
      q'.players.length = 0) ∧
    ((add_remove_player cap s cid qid ac t u).2.1 = AddRemovePlayerResult.PlayerQueued q' ↔
      (q'.players.length ≠ q'.capacity ∧ q'.players.length ≠ 0)) := by
  have hq'' : q' = (toggled (effQueue cap s cid qid ac t) u).1 := by
    rw [hq', effQueue_add_remove_player]
  have hres : (add_remove_player cap s cid qid ac t u).2.1 = classifyQueue q' := by
    rw [hq'']; rfl
  have hcap' : 0 < q'.capacity := by
    rw [hq'', (toggled_fields _ u).1]; exact hcap
  rw [hres]
  unfold classifyQueue
  by_cases hfull : q'.players.length = q'.capacity
  · have hne : q'.players.length ≠ 0 := by omega
    have hc0 : q'.capacity ≠ 0 := by omega
    simp [hfull, hne, hc0]
  · by_cases hemp : q'.players.length = 0
    · have h0 : (0 : Nat) ≠ q'.capacity := by omega
      simp [hfull, hemp, h0]
    · simp [hfull, hemp]

/-- C2 witness: adding "A" to a fresh queue of capacity 1 leaves it at
capacity, and the result is classified `QueueFull` on that post-operation
queue. -/
theorem addRemovePlayer_classification_witness :
    0 < (effQueue 1 State.empty 0 "" "/add" 0).capacity ∧
    ((add_remove_player 1 State.empty 0 "" "/add" 0 "A").2.1 =
        AddRemovePlayerResult.QueueFull
          (effQueue 1 (add_remove_player 1 State.empty 0 "" "/add" 0 "A").1 0 "" "/add" 0) ↔
      (effQueue 1 (add_remove_player 1 State.empty 0 "" "/add" 0 "A").1
        0 "" "/add" 0).players.length =
      (effQueue 1 (add_remove_player 1 State.empty 0 "" "/add" 0 "A").1
        0 "" "/add" 0).capacity) := by
  exact ⟨by decide,
    (addRemovePlayer_classification 1 State.empty 0 "" "/add" 0 "A" (by decide) _ rfl).1⟩

/-- C4: `rm_chat_queue` removes and returns a present queue; on an absent
queue it returns `none` and leaves the state untouched; in particular a
second call after any first call returns `none` with no further state
change. -/
theorem rmChatQueue_idempotent (s : State) (cid : ChatId) (qid : QueueId) :
    (∀ q, alookup qid (effChat s cid).queues = some q →
      (rm_chat_queue s cid qid).2 = some q ∧
      alookup qid (effChat (rm_chat_queue s cid qid).1 cid).queues = none) ∧
    (alookup qid (effChat s cid).queues = none → rm_chat_queue s cid qid = (s, none)) ∧
    rm_chat_queue (rm_chat_queue s cid qid).1 cid qid = ((rm_chat_queue s cid qid).1, none) := by
  cases hc : alookup cid s.chats with
  | none =>
    refine ⟨?_, ?_, ?_⟩
    · intro q hqq
      rw [effChat, hc] at hqq
      simp [alookup] at hqq
    · intro _
      simp [rm_chat_queue, hc]
    · simp [rm_chat_queue, hc]
  | some chat =>
    cases hq : alookup qid chat.queues with
    | none =>
      refine ⟨?_, ?_, ?_⟩
      · intro q hqq
        rw [effChat, hc] at hqq
        simp only [Option.getD_some] at hqq
        rw [hq] at hqq
        exact Option.noConfusion hqq
      · intro _
        simp [rm_chat_queue, hc, hq]
      · simp [rm_chat_queue, hc, hq]
    | some q0 =>
      have hrm : rm_chat_queue s cid qid =
          (⟨ainsert cid ⟨aerase qid chat.queues⟩ s.chats⟩, some q0) := by
        simp [rm_chat_queue, hc, hq]
      refine ⟨?_, ?_, ?_⟩
      · intro q hqq
        rw [effChat, hc] at hqq
        simp only [Option.getD_some] at hqq
        rw [hq] at hqq
        have hq0 : q0 = q := Option.some.inj hqq
        subst hq0
        refine ⟨by rw [hrm], ?_⟩
        rw [hrm]
        simp [effChat, alookup_ainsert, alookup_aerase]
      · intro hnone
        rw [effChat, hc] at hnone
        simp only [Option.getD_some] at hnone
        rw [hq] at hnone
        exact Option.noConfusion hnone
      · rw [hrm]
        simp [rm_chat_queue, alookup_ainsert, alookup_aerase]

/-- C4 witness: on a state holding one chat with one queue, removal
returns the queue and a subsequent lookup finds it absent. -/
theorem rmChatQueue_idempotent_witness :
    (rm_chat_queue (⟨[(0, ⟨[("", ⟨["A"], 2, 0, "/add"⟩)]⟩)]⟩ : State) 0 "").2 =
      some ⟨["A"], 2, 0, "/add"⟩ ∧
    alookup ""
      (effChat (rm_chat_queue (⟨[(0, ⟨[("", ⟨["A"], 2, 0, "/add"⟩)]⟩)]⟩ : State) 0 "").1
        0).queues = none := by
  exact (rmChatQueue_idempotent ⟨[(0, ⟨[("", ⟨["A"], 2, 0, "/add"⟩)]⟩)]⟩ 0 "").1
    ⟨["A"], 2, 0, "/add"⟩ (by decide)

/-- C6: a command arriving without resolvable sender identity is a no-op
for every command shape — the handler returns the state unchanged and
sends no message. -/
theorem handleCmd_no_sender (cap : Nat) (now : TimeOfDay) (s : State) (cid : ChatId)
    (cmd : Command) : handle_cmd cap now s cid none cmd = (s, []) := rfl

/-- C7: loading the persisted snapshot never aborts — for every load
outcome the startup step succeeds with the loaded state, absence or
corruption degrades to the empty default state, a good snapshot is used
as-is, and the failure flag is raised exactly on absence/corruption. -/
theorem tryReadFromFile_total (o : LoadOutcome) :
    startupState o = Except.ok (try_read_from_file o).1 ∧
    ((try_read_from_file o).2 = true ↔
      (o = LoadOutcome.absent ∨ o = LoadOutcome.corrupted)) ∧
    (∀ st, o = LoadOutcome.ok st → try_read_from_file o = (st, false)) ∧
    ((o = LoadOutcome.absent ∨ o = LoadOutcome.corrupted) →
      (try_read_from_file o).1 = State.empty) := by
  cases o <;> simp [startupState, try_read_from_file]

/-- C7 witness: a corrupted snapshot degrades to the empty state and the
startup step still succeeds. -/
theorem tryReadFromFile_total_witness :
    (try_read_from_file LoadOutcome.corrupted).1 = State.empty ∧
    startupState LoadOutcome.corrupted =
      Except.ok (try_read_from_file LoadOutcome.corrupted).1 := by
  have h := tryReadFromFile_total LoadOutcome.corrupted
  exact ⟨h.2.2.2 (Or.inr rfl), h.1⟩

/-- C8: an `AddRemove` without a time targets the instant queue — empty
id, timeout now plus the 30-minute offset (wrapping at midnight), add
command "/add"; with a time-of-day it targets the timed queue named
"HH:MM", with exactly the supplied time as timeout and add command
"/HHMM". -/
theorem mkQueueTarget_construction (now t : TimeOfDay) :
    mkQueueTarget now none =
      ("", (now + INSTANT_QUEUE_TIMEOUT_MINUTES * 60) % secondsPerDay, "/add") ∧
    INSTANT_QUEUE_TIMEOUT_MINUTES = 30 ∧
    isInstantQueue (mkQueueTarget now none).1 = true ∧
    mkQueueTarget now (some t) =
      (twoDigits (t / 3600) ++ ":" ++ twoDigits (t % 3600 / 60), t,
        "/" ++ twoDigits (t / 3600) ++ twoDigits (t % 3600 / 60)) ∧
    (mkQueueTarget now (some t)).1 = fmt_naive_time t := by
  exact ⟨rfl, rfl, rfl, rfl, rfl⟩

theorem effChat_wf {s : State} (hwf : State.wf s) (cid : ChatId) :
    ∀ qid q, alookup qid (effChat s cid).queues = some q → q.wf := by
  intro qid q hq
  unfold effChat at hq
  cases hc : alookup cid s.chats with
  | none => rw [hc] at hq; simp [alookup] at hq
  | some chat =>
    rw [hc] at hq
    simp only [Option.getD_some] at hq
    exact hwf cid chat hc qid q hq

theorem effQueue_wf {s : State} (hwf : State.wf s) (cap : Nat) (cid : ChatId)
    (qid : QueueId) (ac : String) (t : TimeOfDay) :
    (effQueue cap s cid qid ac t).wf := by
  unfold effQueue
  cases hq : alookup qid (effChat s cid).queues with
  | none => exact ⟨Nat.zero_le _, List.nodup_nil⟩
  | some q => simpa using effChat_wf hwf cid qid q hq

theorem toggled_wf {q : Queue} (u : Username) (h : q.wf) : (toggled q u).1.wf := by
  obtain ⟨hlen, hnd⟩ := h
  unfold toggled
  by_cases hu : u ∈ q.players
  · simp only [hu, if_pos]
    exact ⟨le_trans (List.length_filter_le _ _) hlen, hnd.filter _⟩
  · by_cases hl : q.players.length < q.capacity
    · simp only [hu, hl, if_neg, if_pos, not_false_iff]
      refine ⟨?_, ?_⟩
      · rw [List.length_append]
        simpa using hl
      · rw [List.nodup_append]
        exact ⟨hnd, List.nodup_singleton u, by simpa [List.disjoint_singleton] using hu⟩
    · simp only [hu, hl, if_neg, not_false_iff]
      exact ⟨hlen, hnd⟩

theorem wf_add_remove_player (cap : Nat) (s : State) (cid : ChatId) (qid : QueueId)
    (ac : String) (t : TimeOfDay) (u : Username) (hwf : State.wf s) :
    State.wf (add_remove_player cap s cid qid ac t u).1 := by
  intro cid' chat' hc' qid' q'' hq'
  have hstate : (add_remove_player cap s cid qid ac t u).1 =
      ⟨ainsert cid ⟨ainsert qid (toggled (effQueue cap s cid qid ac t) u).1
        (effChat s cid).queues⟩ s.chats⟩ := rfl
  rw [hstate] at hc'
  by_cases hcid : cid = cid'
  · subst hcid
    rw [show (⟨ainsert cid ⟨ainsert qid (toggled (effQueue cap s cid qid ac t) u).1
        (effChat s cid).queues⟩ s.chats⟩ : State).chats =
      ainsert cid ⟨ainsert qid (toggled (effQueue cap s cid qid ac t) u).1
        (effChat s cid).queues⟩ s.chats from rfl, alookup_ainsert] at hc'
    have hchat : chat' = ⟨ainsert qid (toggled (effQueue cap s cid qid ac t) u).1
        (effChat s cid).queues⟩ := (Option.some.inj hc').symm
    subst hchat
    simp only at hq'
    by_cases hqid : qid = qid'
    · subst hqid
      rw [alookup_ainsert] at hq'
      have hq'' : q'' = (toggled (effQueue cap s cid qid ac t) u).1 :=
        (Option.some.inj hq').symm
      subst hq''
      exact toggled_wf u (effQueue_wf hwf cap cid qid ac t)
    · rw [alookup_ainsert_ne _ _ _ _ hqid] at hq'
      exact effChat_wf hwf cid qid' q'' hq'
  · rw [show (⟨ainsert cid ⟨ainsert qid (toggled (effQueue cap s cid qid ac t) u).1
        (effChat s cid).queues⟩ s.chats⟩ : State).chats =
      ainsert cid ⟨ainsert qid (toggled (effQueue cap s cid qid ac t) u).1
        (effChat s cid).queues⟩ s.chats from rfl,
      alookup_ainsert_ne _ _ _ _ hcid] at hc'
    exact hwf cid' chat' hc' qid' q'' hq'

theorem wf_rm_player (s : State) (cid : ChatId) (u : Username) (hwf : State.wf s) :
    State.wf (rm_player s cid u).1 := by
  unfold rm_player
  cases hc : alookup cid s.chats with
  | none => exact hwf
  | some chat =>
    intro cid' chat' hc' qid' q'' hq'
    simp only at hc'
    by_cases hcid : cid = cid'
    · subst hcid
      rw [alookup_ainsert] at hc'
      have hchat : chat' = ⟨chat.queues.map (fun p =>
          (p.1, if u ∈ p.2.players then
                  { p.2 with players := p.2.players.filter (· ≠ u) }
                else p.2))⟩ := (Option.some.inj hc').symm
      subst hchat
      simp only at hq'
      rw [alookup_map_value] at hq'
      cases hq0 : alookup qid' chat.queues with
      | none => rw [hq0] at hq'; exact Option.noConfusion hq'
      | some q0 =>
        rw [hq0] at hq'
        simp only [Option.map_some'] at hq'
        have hwf0 : q0.wf := hwf cid chat hc qid' q0 hq0
        obtain ⟨hlen, hnd⟩ := hwf0
        have hq'' := (Option.some.inj hq').symm
        subst hq''
        by_cases hu : u ∈ q0.players
        · simp only [hu, if_pos]
          exact ⟨le_trans (List.length_filter_le _ _) hlen, hnd.filter _⟩
        · simp only [hu, if_neg, not_false_iff]
          exact ⟨hlen, hnd⟩
    · rw [alookup_ainsert_ne _ _ _ _ hcid] at hc'
      exact hwf cid' chat' hc' qid' q'' hq'

theorem wf_rm_chat_queue (s : State) (cid : ChatId) (qid : QueueId) (hwf : State.wf s) :
    State.wf (rm_chat_queue s cid qid).1 := by
  cases hc : alookup cid s.chats with
  | none =>
    have hrm : (rm_chat_queue s cid qid).1 = s := by simp [rm_chat_queue, hc]
    rw [hrm]; exact hwf
  | some chat =>
    cases hq : alookup qid chat.queues with
    | none =>
      have hrm : (rm_chat_queue s cid qid).1 = s := by simp [rm_chat_queue, hc, hq]
      rw [hrm]; exact hwf
    | some q0 =>
      have hrm : (rm_chat_queue s cid qid).1 =
          ⟨ainsert cid ⟨aerase qid chat.queues⟩ s.chats⟩ := by
        simp [rm_chat_queue, hc, hq]
      rw [hrm]
      intro cid' chat' hc' qid' q'' hq'
      simp only at hc'
      by_cases hcid : cid = cid'
      · subst hcid
        rw [alookup_ainsert] at hc'
        have hchat : chat' = ⟨aerase qid chat.queues⟩ := (Option.some.inj hc').symm
        subst hchat
        simp only at hq'
        by_cases hqid : qid = qid'
        · subst hqid
          rw [alookup_aerase] at hq'
          exact Option.noConfusion hq'
        · rw [alookup_aerase_ne _ _ _ hqid] at hq'
          exact hwf cid chat hc qid' q'' hq'
      · rw [alookup_ainsert_ne _ _ _ _ hcid] at hc'
        exact hwf cid' chat' hc' qid' q'' hq'

/-- C3: every state reachable from the empty initial state through the
three transition functions satisfies the invariant — each queue holds at
most `capacity` players and its players list has no duplicates. -/
theorem reachable_state_wf (s : State) (h : Reachable s) : State.wf s := by
  induction h with
  | init => intro cid chat hc; simp [State.empty, alookup] at hc
  | addRemove cap s cid qid ac t u _ ih => exact wf_add_remove_player cap s cid qid ac t u ih
  | removeAll s cid u _ ih => exact wf_rm_player s cid u ih
  | removeQueue s cid qid _ ih => exact wf_rm_chat_queue s cid qid ih

/-- C3 witness: the state after one add on the empty state is reachable
and satisfies the invariant. -/
theorem reachable_state_wf_witness :
    State.wf (add_remove_player 2 State.empty 0 "" "/add" 0 "A").1 :=
  reachable_state_wf _ (Reachable.addRemove 2 State.empty 0 "" "/add" 0 "A" Reachable.init)

/-- C5: one scheduler tick fires exactly on the queues whose timeout
truncated to minute-of-day equals the current time so truncated; each
firing removes the chat queue, carries the removed state forward, and
produces a notification precisely when a queue was actually removed — a
"ready to play" message enumerating the players for a full queue, a
"timed out" message enumerating the players present otherwise. -/
theorem pollTick_spec (s : State) (now : TimeOfDay) :
    (∀ cid qid, (cid, qid) ∈ tickTargets s (fmt_naive_time now) ↔
      ∃ chat q, (cid, chat) ∈ s.chats ∧ (qid, q) ∈ chat.queues ∧
        fmt_naive_time now = fmt_naive_time q.timeout) ∧
    (∀ st cid qid, handle_queue_timeout st cid qid =
      ((rm_chat_queue st cid qid).1,
       (rm_chat_queue st cid qid).2.map (fun q =>
         if q.is_full then OutMsg.readyToPlay qid q.players
         else OutMsg.timedOut qid q.players))) ∧
    (∀ st cid qid, (handle_queue_timeout st cid qid).2 = none ↔
      (rm_chat_queue st cid qid).2 = none) ∧
    pollTick s now = (tickTargets s (fmt_naive_time now)).foldl (fun acc target =>
      let r := handle_queue_timeout acc.1 target.1 target.2
      (r.1, acc.2 ++ r.2.toList)) (s, []) := by
  refine ⟨?_, ?_, ?_, rfl⟩
  · intro cid qid
    constructor
    · intro hmem
      simp only [tickTargets, List.mem_flatten, List.mem_map] at hmem
      obtain ⟨l, ⟨c, hc, rfl⟩, hml⟩ := hmem
      simp only [List.mem_filterMap] at hml
      obtain ⟨qe, hqe, hif⟩ := hml
      by_cases ht : fmt_naive_time now = fmt_naive_time qe.2.timeout
      · rw [if_pos ht] at hif
        have hpair := Option.some.inj hif
        rw [Prod.mk.injEq] at hpair
        refine ⟨c.2, qe.2, ?_, ?_, ht⟩
        · rw [← hpair.1]; exact hc
        · rw [← hpair.2]; exact hqe
      · rw [if_neg ht] at hif
        exact Option.noConfusion hif
    · rintro ⟨chat, q, hc, hq, ht⟩
      simp only [tickTargets, List.mem_flatten, List.mem_map]
      refine ⟨_, ⟨(cid, chat), hc, rfl⟩, ?_⟩
      simp only [List.mem_filterMap]
      exact ⟨(qid, q), hq, by rw [if_pos ht]⟩
  · intro st cid qid
    cases hr : (rm_chat_queue st cid qid).2 with
    | none => simp [handle_queue_timeout, hr]
    | some q => simp [handle_queue_timeout, hr]
  · intro st cid qid
    cases hr : (rm_chat_queue st cid qid).2 with
    | none => simp [handle_queue_timeout, hr]
    | some q => simp [handle_queue_timeout, hr]

/-- C9: `rm_player` removes the username from exactly the queues of the
chat that contain it, returns one (queueId, resultingQueue) entry per
queue actually modified and none for any other queue, leaves every queue
not containing the username unchanged, leaves the username in no queue,
and the `RemoveAll` handler emits exactly one status message per
affected queue. -/
theorem rmPlayer_spec (cap : Nat) (now : TimeOfDay) (s : State) (cid : ChatId)
    (u : Username) :
    (∀ qid q, (qid, q) ∈ (rm_player s cid u).2 ↔
      ∃ q0, (qid, q0) ∈ (effChat s cid).queues ∧ u ∈ q0.players ∧
        q = { q0 with players := q0.players.filter (· ≠ u) }) ∧
    (∀ qid q0, alookup qid (effChat s cid).queues = some q0 → u ∉ q0.players →
      alookup qid (effChat (rm_player s cid u).1 cid).queues = some q0) ∧
    (∀ qid q0, alookup qid (effChat s cid).queues = some q0 → u ∈ q0.players →
      alookup qid (effChat (rm_player s cid u).1 cid).queues =
        some { q0 with players := q0.players.filter (· ≠ u) }) ∧
    (∀ qid q, alookup qid (effChat (rm_player s cid u).1 cid).queues = some q →
      u ∉ q.players) ∧
    handle_cmd cap now s cid (some u) Command.RemoveAll =
      ((rm_player s cid u).1, (rm_player s cid u).2.map (fun p =>
        OutMsg.queueStatus p.1 p.2 (AddRemovePlayerOp.PlayerRemoved u))) := by
  cases hc : alookup cid s.chats with
  | none =>
    have heff : effChat s cid = ⟨[]⟩ := by simp [effChat, hc]
    have hrm : rm_player s cid u = (s, []) := by simp [rm_player, hc]
    refine ⟨?_, ?_, ?_, ?_, rfl⟩
    · intro qid q
      rw [hrm, heff]
      simp
    · intro qid q0 hl
      rw [heff] at hl
      simp [alookup] at hl
    · intro qid q0 hl
      rw [heff] at hl
      simp [alookup] at hl
    · intro qid q hl
      rw [hrm] at hl
      rw [heff] at hl
      simp [alookup] at hl
  | some chat =>
    have heff : effChat s cid = chat := by simp [effChat, hc]
    have hrm1 : (rm_player s cid u).1 = ⟨ainsert cid ⟨chat.queues.map (fun p =>
        (p.1, if u ∈ p.2.players then
                { p.2 with players := p.2.players.filter (· ≠ u) }
              else p.2))⟩ s.chats⟩ := by
      simp [rm_player, hc]
    have hrm2 : (rm_player s cid u).2 = chat.queues.filterMap (fun p =>
        if u ∈ p.2.players then
          some (p.1, { p.2 with players := p.2.players.filter (· ≠ u) })
        else none) := by
      simp [rm_player, hc]
    have heff' : effChat (rm_player s cid u).1 cid = ⟨chat.queues.map (fun p =>
        (p.1, if u ∈ p.2.players then
                { p.2 with players := p.2.players.filter (· ≠ u) }
              else p.2))⟩ := by
      rw [hrm1]
      simp [effChat, alookup_ainsert]
    refine ⟨?_, ?_, ?_, ?_, rfl⟩
    · intro qid q
      rw [hrm2, heff]
      constructor
      · intro hmem
        simp only [List.mem_filterMap] at hmem
        obtain ⟨p, hp, hif⟩ := hmem
        by_cases hu : u ∈ p.2.players
        · rw [if_pos hu] at hif
          have hpair := Option.some.inj hif
          rw [Prod.mk.injEq] at hpair
          refine ⟨p.2, ?_, hu, hpair.2.symm⟩
          rw [← hpair.1]
          exact hp
        · rw [if_neg hu] at hif
          exact Option.noConfusion hif
      · rintro ⟨q0, hq0, hu, rfl⟩
        simp only [List.mem_filterMap]
        exact ⟨(qid, q0), hq0, by rw [if_pos hu]⟩
    · intro qid q0 hl hu
      rw [heff] at hl
      rw [heff']
      simp only [alookup_map_value, hl, Option.map_some']
      simp [hu]
    · intro qid q0 hl hu
      rw [heff] at hl
      rw [heff']
      simp only [alookup_map_value, hl, Option.map_some']
      simp [hu]
    · intro qid q hl
      rw [heff'] at hl
      simp only [alookup_map_value] at hl
      cases hq0 : alookup qid chat.queues with
      | none => rw [hq0] at hl; exact Option.noConfusion hl
      | some q0 =>
        rw [hq0] at hl
        simp only [Option.map_some'] at hl
        have hq := (Option.some.inj hl).symm
        subst hq
        by_cases hu : u ∈ q0.players
        · simp only [hu, if_pos]
          intro hmem
          rw [List.mem_filter] at hmem
          simp at hmem
        · simp only [hu, if_neg, not_false_iff]

/-- C9 witness: removing "X" from a chat where queue "a" contains it and
queue "b" does not modifies "a" as returned and leaves "b" untouched. -/
theorem rmPlayer_spec_witness :
    alookup "b" (effChat (rm_player
        (⟨[(0, ⟨[("a", ⟨["X", "Y"], 4, 0, "/a"⟩), ("b", ⟨["Y"], 4, 0, "/b"⟩)]⟩)]⟩ : State)
        0 "X").1 0).queues = some ⟨["Y"], 4, 0, "/b"⟩ ∧
    alookup "a" (effChat (rm_player
        (⟨[(0, ⟨[("a", ⟨["X", "Y"], 4, 0, "/a"⟩), ("b", ⟨["Y"], 4, 0, "/b"⟩)]⟩)]⟩ : State)
        0 "X").1 0).queues =
      some { (⟨["X", "Y"], 4, 0, "/a"⟩ : Queue) with
                players := ["X", "Y"].filter (· ≠ "X") } := by
  have h := rmPlayer_spec 4 0
    (⟨[(0, ⟨[("a", ⟨["X", "Y"], 4, 0, "/a"⟩), ("b", ⟨["Y"], 4, 0, "/b"⟩)]⟩)]⟩ : State)
    0 "X"
  exact ⟨h.2.1 "b" ⟨["Y"], 4, 0, "/b"⟩ (by decide) (by decide),
    h.2.2.1 "a" ⟨["X", "Y"], 4, 0, "/a"⟩ (by decide) (by decide)⟩

theorem fmt_naive_time_ne_empty (t : TimeOfDay) : fmt_naive_time t ≠ "" := by
  intro h
  have hlen := congrArg String.length h
  rw [fmt_naive_time, String.length_append, String.length_append] at hlen
  have h1 : (":" : String).length = 1 := rfl
  have h2 : ("" : String).length = 0 := rfl
  rw [h1, h2] at hlen
  omega

theorem isInstantQueue_timed (t : TimeOfDay) : isInstantQueue (fmt_naive_time t) = false := by
  rw [isInstantQueue]
  exact decide_eq_false (fmt_naive_time_ne_empty t)

/-- C10: the "Match ready" announcement is reserved for the instant
queue — an `AddRemove` that targets a timed ("HH:MM") queue never sends
it, and when such a call leaves the timed queue exactly at capacity
(result `QueueFull`) the ordinary queue status message is sent
instead. -/
theorem addRemove_timed_no_matchReady
    (cap : Nat) (now : TimeOfDay) (s : State) (cid : ChatId) (u : Username)
    (t : TimeOfDay) (for_user : Option Username) :
    isInstantQueue (mkQueueTarget now (some t)).1 = false ∧
    (∀ qid ps, OutMsg.matchReady qid ps ∉
      (handle_cmd cap now s cid (some u) (Command.AddRemove (some t) for_user)).2) ∧
    (∀ q, (add_remove_player cap s cid (mkQueueTarget now (some t)).1
        (mkQueueTarget now (some t)).2.2 (mkQueueTarget now (some t)).2.1
        (for_user.getD (mk_username u))).2.1 = AddRemovePlayerResult.QueueFull q →
      (handle_cmd cap now s cid (some u) (Command.AddRemove (some t) for_user)).2 =
        [OutMsg.queueStatus (mkQueueTarget now (some t)).1 q
          (add_remove_player cap s cid (mkQueueTarget now (some t)).1
            (mkQueueTarget now (some t)).2.2 (mkQueueTarget now (some t)).2.1
            (for_user.getD (mk_username u))).2.2]) := by
  have hinst : isInstantQueue (mkQueueTarget now (some t)).1 = false :=
    isInstantQueue_timed t
  refine ⟨hinst, ?_, ?_⟩
  · intro qid ps
    cases hres : (add_remove_player cap s cid (mkQueueTarget now (some t)).1
        (mkQueueTarget now (some t)).2.2 (mkQueueTarget now (some t)).2.1
        (for_user.getD (mk_username u))).2.1 with
    | QueueFull q =>
      have hmsg : (handle_cmd cap now s cid (some u)
          (Command.AddRemove (some t) for_user)).2 =
          [OutMsg.queueStatus (mkQueueTarget now (some t)).1 q
            (add_remove_player cap s cid (mkQueueTarget now (some t)).1
              (mkQueueTarget now (some t)).2.2 (mkQueueTarget now (some t)).2.1
              (for_user.getD (mk_username u))).2.2] := by
        simp [handle_cmd, hres, hinst]
      rw [hmsg]
      simp
    | PlayerQueued q =>
      have hmsg : (handle_cmd cap now s cid (some u)
          (Command.AddRemove (some t) for_user)).2 =
          [OutMsg.queueStatus (mkQueueTarget now (some t)).1 q
            (add_remove_player cap s cid (mkQueueTarget now (some t)).1
              (mkQueueTarget now (some t)).2.2 (mkQueueTarget now (some t)).2.1
              (for_user.getD (mk_username u))).2.2] := by
        simp [handle_cmd, hres]
      rw [hmsg]
      simp
    | QueueEmpty q =>
      have hmsg : (handle_cmd cap now s cid (some u)
          (Command.AddRemove (some t) for_user)).2 =
          [OutMsg.queueStatus (mkQueueTarget now (some t)).1 q
            (add_remove_player cap s cid (mkQueueTarget now (some t)).1
              (mkQueueTarget now (some t)).2.2 (mkQueueTarget now (some t)).2.1
              (for_user.getD (mk_username u))).2.2] := by
        simp [handle_cmd, hres]
      rw [hmsg]
      simp
  · intro q hres
    simp [handle_cmd, hres, hinst]

/-- C10 witness: adding "A" to a fresh timed queue of capacity 1 leaves
it at capacity, yet the handler sends the ordinary status message, not
"Match ready". -/
theorem addRemove_timed_no_matchReady_witness :
    (add_remove_player 1 State.empty 0 (mkQueueTarget 0 (some 3600)).1
        (mkQueueTarget 0 (some 3600)).2.2 (mkQueueTarget 0 (some 3600)).2.1
        ((none : Option Username).getD (mk_username "A"))).2.1 =
      AddRemovePlayerResult.QueueFull ⟨["A"], 1, 3600, "/0100"⟩ ∧
    (handle_cmd 1 0 State.empty 0 (some "A") (Command.AddRemove (some 3600) none)).2 =
      [OutMsg.queueStatus (mkQueueTarget 0 (some 3600)).1 ⟨["A"], 1, 3600, "/0100"⟩
        (add_remove_player 1 State.empty 0 (mkQueueTarget 0 (some 3600)).1
          (mkQueueTarget 0 (some 3600)).2.2 (mkQueueTarget 0 (some 3600)).2.1
          ((none : Option Username).getD (mk_username "A"))).2.2] := by
  refine ⟨by decide, ?_⟩
  exact (addRemove_timed_no_matchReady 1 0 State.empty 0 "A" 3600 none).2.2
    ⟨["A"], 1, 3600, "/0100"⟩ (by decide)

end AddBot
